import Mathlib

/-!
# Verification of the `tmp/fix-all-patterns.py` and `tmp/fix-remaining.py` rewriters

Both scripts read each file of a hardcoded list, apply an ordered sequence of
`re.sub` substitutions to its text, write the text back when it changed, and
report per-file outcomes plus a final count.

Every pattern in both scripts has the same shape: a literal lead, a first lazy
capture group (`[^)]+?` or `(.+?)`), a literal middle, a second lazy capture
group, and a literal tail; every replacement template has the shape
`A ++ group2 ++ B ++ group1 ++ C`.  We embed exactly that pattern shape and
Python's `re.sub` semantics for it: scan left to right, at each position find
the backtracking-least match (group lengths minimised lexicographically, each
group nonempty), emit the replacement and resume after the matched text,
otherwise copy one character and move on.  Content is a `List Char`; Python's
text-mode I/O details (newline translation, encodings) are outside the claims.
-/

/-- Remove the literal `p` from the front of `s`; `none` when `p` is not a
prefix of `s`. -/
def stripLead : List Char → List Char → Option (List Char)
  | [], s => some s
  | _ :: _, [] => none
  | a :: as, b :: bs => if a = b then stripLead as bs else none

/-- One rewrite rule of the scripts: the pattern is
`pre (g1ok+?) mid (g2ok+?) post` with `g1ok`/`g2ok` the character classes of
the two lazy groups, and the replacement is `repA ++ g2 ++ repB ++ g1 ++ repC`
(both scripts put `\2` before `\1`). -/
structure Rule where
  pre : List Char
  g1ok : Char → Bool
  mid : List Char
  g2ok : Char → Bool
  post : List Char
  repA : List Char
  repB : List Char
  repC : List Char

/-- Lazy match of the second group: the least nonempty run of `ok` characters
after which the literal `post` occurs; returns the group and the text after
`post`.  Mirrors how a lazy `+?` consumes one character, then tries the rest
of the pattern before consuming another. -/
def lazyG (ok : Char → Bool) (post : List Char) : List Char → Option (List Char × List Char)
  | [] => none
  | c :: cs =>
    if ok c then
      match stripLead post cs with
      | some rest => some ([c], rest)
      | none =>
        match lazyG ok post cs with
        | some (g, rest) => some (c :: g, rest)
        | none => none
    else none

/-- After the first group, the rest of the pattern: the literal `mid`, then
the lazy second group and `post`. -/
def tailG (r : Rule) (s : List Char) : Option (List Char × List Char) :=
  match stripLead r.mid s with
  | none => none
  | some s2 => lazyG r.g2ok r.post s2

/-- Lazy match of the first group followed by the rest of the pattern:
group lengths are minimised lexicographically (extend group 1 only when no
second group completes the match), exactly the backtracking order of the
regex engine. -/
def lazyG1 (r : Rule) : List Char → Option (List Char × List Char × List Char)
  | [] => none
  | c :: cs =>
    if r.g1ok c then
      match tailG r cs with
      | some (g2, rest) => some ([c], g2, rest)
      | none =>
        match lazyG1 r cs with
        | some (g1, g2, rest) => some (c :: g1, g2, rest)
        | none => none
    else none

/-- Try to match rule `r` at the very start of `s`; on success returns the two
captured groups and the text after the match. -/
def matchAt (r : Rule) (s : List Char) : Option (List Char × List Char × List Char) :=
  match stripLead r.pre s with
  | none => none
  | some s1 => lazyG1 r s1

/-- The replacement text `re.sub` emits for a match of `r` with groups
`g1`, `g2`. -/
def repl (r : Rule) (g1 g2 : List Char) : List Char :=
  r.repA ++ g2 ++ r.repB ++ g1 ++ r.repC

/-- Fuel-indexed body of `re.sub`: at each position try the pattern; on a hit
emit the replacement and resume after the matched text, otherwise copy one
character.  Any match consumes at least two characters, so fuel `s.length`
never runs out (the fuel-zero branch is unreachable from `subst`). -/
def substAux (r : Rule) : Nat → List Char → List Char
  | 0, s => s
  | _ + 1, [] => []
  | fuel + 1, c :: cs =>
    match matchAt r (c :: cs) with
    | some (g1, g2, rest) => repl r g1 g2 ++ substAux r fuel rest
    | none => c :: substAux r fuel cs

/-- Python's `re.sub(pattern, replacement, s)` for a rule of this shape. -/
def subst (r : Rule) (s : List Char) : List Char :=
  substAux r s.length s

/-- Apply a list of rules in order, each rule's output feeding the next —
the body of `fix_file` between the read and the changed-test. -/
def applyRules (rs : List Rule) (s : List Char) : List Char :=
  rs.foldl (fun acc r => subst r acc) s

/-- `[^)]` of the patterns: any character other than a closing parenthesis. -/
def notRp (c : Char) : Bool := c ≠ ')'

/-- `.` without `re.DOTALL`: any character other than a newline. -/
def notNl (c : Char) : Bool := c ≠ '\n'

/-- `.` under `re.DOTALL`: any character. -/
def anyChar (_ : Char) : Bool := true

/-- Pattern 1 of `fix-all-patterns.py`:
`expectTypeOf\(([^)]+?)\)\.toEqualTypeOf\(([^)]+?)\)` with replacement
`Ts.Assert.exact.ofAs<typeof \2>().on(\1)`. -/
def ruleA1 : Rule :=
  { pre := "expectTypeOf(".toList, g1ok := notRp
    mid := ").toEqualTypeOf(".toList, g2ok := notRp, post := ")".toList
    repA := "Ts.Assert.exact.ofAs<typeof ".toList
    repB := ">().on(".toList, repC := ")".toList }

/-- Pattern 2 of `fix-all-patterns.py`:
`expectTypeOf\(([^)]+?)\)\.toMatchTypeOf<(.+?)>\(\)` with replacement
`Ts.Assert.sub.ofAs<\2>().on(\1)`. -/
def ruleA2 : Rule :=
  { pre := "expectTypeOf(".toList, g1ok := notRp
    mid := ").toMatchTypeOf<".toList, g2ok := notNl, post := ">()".toList
    repA := "Ts.Assert.sub.ofAs<".toList
    repB := ">().on(".toList, repC := ")".toList }

/-- Pattern 3 of `fix-all-patterns.py`:
`expectTypeOf<(.+?)>\(\)\.toMatchTypeOf<(.+?)>\(\)` with replacement
`Ts.Assert.sub.ofAs<\2>().onAs<\1>()`. -/
def ruleA3 : Rule :=
  { pre := "expectTypeOf<".toList, g1ok := notNl
    mid := ">().toMatchTypeOf<".toList, g2ok := notNl, post := ">()".toList
    repA := "Ts.Assert.sub.ofAs<".toList
    repB := ">().onAs<".toList, repC := ">()".toList }

/-- Pattern 4 of `fix-all-patterns.py`:
`expectTypeOf<(.+?)>\(\)\.not\.toMatchTypeOf<(.+?)>\(\)` with replacement
`Ts.Assert.not.sub.ofAs<\2>().onAs<\1>()`. -/
def ruleA4 : Rule :=
  { pre := "expectTypeOf<".toList, g1ok := notNl
    mid := ">().not.toMatchTypeOf<".toList, g2ok := notNl, post := ">()".toList
    repA := "Ts.Assert.not.sub.ofAs<".toList
    repB := ">().onAs<".toList, repC := ">()".toList }

/-- Pattern 5 of `fix-all-patterns.py` (also pattern 1 of `fix-remaining.py`):
`expectTypeOf\(([^)]+?)\)\.toEqualTypeOf<(.+?)>\(\)` with replacement
`Ts.Assert.exact.ofAs<\2>().on(\1)`. -/
def ruleA5 : Rule :=
  { pre := "expectTypeOf(".toList, g1ok := notRp
    mid := ").toEqualTypeOf<".toList, g2ok := notNl, post := ">()".toList
    repA := "Ts.Assert.exact.ofAs<".toList
    repB := ">().on(".toList, repC := ")".toList }

/-- Pattern 6 of `fix-all-patterns.py`:
`expectTypeOf<(.+?)>\(\)\.toEqualTypeOf<(.+?)>\(\)` with replacement
`Ts.Assert.exact.ofAs<\2>().onAs<\1>()`. -/
def ruleA6 : Rule :=
  { pre := "expectTypeOf<".toList, g1ok := notNl
    mid := ">().toEqualTypeOf<".toList, g2ok := notNl, post := ">()".toList
    repA := "Ts.Assert.exact.ofAs<".toList
    repB := ">().onAs<".toList, repC := ">()".toList }

/-- Pattern 2 of `fix-remaining.py`: the same regex as `ruleA6` but compiled
with `re.DOTALL`, so both `.` classes also match newlines; the replacement
function builds `Ts.Assert.exact.ofAs<\2>().onAs<\1>()`. -/
def ruleR2 : Rule :=
  { pre := "expectTypeOf<".toList, g1ok := anyChar
    mid := ">().toEqualTypeOf<".toList, g2ok := anyChar, post := ">()".toList
    repA := "Ts.Assert.exact.ofAs<".toList
    repB := ">().onAs<".toList, repC := ">()".toList }

/-- The six rules of `fix-all-patterns.py` in declared order. -/
def rulesAll : List Rule := [ruleA1, ruleA2, ruleA3, ruleA4, ruleA5, ruleA6]

/-- The two rules of `fix-remaining.py` in declared order. -/
def rulesRemaining : List Rule := [ruleA5, ruleR2]

/-- The full text pipeline of `fix_file` in `fix-all-patterns.py`. -/
def pipelineAll (s : List Char) : List Char := applyRules rulesAll s

/-- The full text pipeline of `fix_file` in `fix-remaining.py`. -/
def pipelineRemaining (s : List Char) : List Char := applyRules rulesRemaining s

/-- The substring the lead of every pattern starts with. -/
def needle : List Char := "expectTypeOf".toList

/-- `true` when `n` occurs as a contiguous substring of `s`. -/
def hasSub (n : List Char) : List Char → Bool
  | [] => (stripLead n ([] : List Char)).isSome
  | c :: cs => (stripLead n (c :: cs)).isSome || hasSub n cs

/-- `true` when the pattern of `r` matches somewhere in `s`. -/
def hasMatch (r : Rule) : List Char → Bool
  | [] => (matchAt r []).isSome
  | c :: cs => (matchAt r (c :: cs)).isSome || hasMatch r cs

/-- The filesystem as far as the scripts see it: an association list from
paths to text contents. -/
abbrev FS := List (List Char × List Char)

/-- Reading a file: `none` models `open` raising (file missing). -/
def lookupFS : FS → List Char → Option (List Char)
  | [], _ => none
  | (q, d) :: t, p => if q = p then some d else lookupFS t p

/-- Writing a file in place (the path was just read, so it exists). -/
def writeFS : FS → List Char → List Char → FS
  | [], p, c => [(p, c)]
  | (q, d) :: t, p, c => if q = p then (p, c) :: t else (q, d) :: writeFS t p c

/-- The `✓ Fixed {filepath}` console line. -/
def okLine (p : List Char) : List Char := "✓ Fixed ".toList ++ p

/-- The `  No changes in {filepath}` console line. -/
def noLine (p : List Char) : List Char := "  No changes in ".toList ++ p

/-- The `Error processing {filepath}: {e}` console line of
`fix-all-patterns.py`; the exception detail `{e}` comes from the OS and is
abstracted away. -/
def errLine (p : List Char) : List Char := "Error processing ".toList ++ p

/-- The final `\nFixed {changed} files` summary line. -/
def summaryLine (n : Nat) : List Char :=
  "\nFixed ".toList ++ Nat.toDigits 10 n ++ " files".toList

/-- `fix_file` for a given rule list: read the file (`none` when that
raises), run the pipeline, write back exactly when the result differs from
the original, and return the new filesystem, the changed flag, and the
console line the function prints. -/
def fixFileWith (rs : List Rule) (fs : FS) (p : List Char) :
    Option (FS × Bool × List Char) :=
  match lookupFS fs p with
  | none => none
  | some content =>
    let out := applyRules rs content
    if out ≠ content then some (writeFS fs p out, true, okLine p)
    else some (fs, false, noLine p)

/-- `fix_file` of `fix-all-patterns.py`. -/
def fixFileAll (fs : FS) (p : List Char) : Option (FS × Bool × List Char) :=
  fixFileWith rulesAll fs p

/-- `fix_file` of `fix-remaining.py`. -/
def fixFileRemaining (fs : FS) (p : List Char) : Option (FS × Bool × List Char) :=
  fixFileWith rulesRemaining fs p

/-- The `__main__` loop of `fix-all-patterns.py`: each `fix_file` call sits
in a `try`/`except`, so a failed file contributes an error line and the loop
moves on; returns the final filesystem, the per-file console lines in order,
and the changed count. -/
def runAll (fs : FS) : List (List Char) → FS × List (List Char) × Nat
  | [] => (fs, [], 0)
  | p :: ps =>
    match fixFileAll fs p with
    | none =>
      let r := runAll fs ps
      (r.1, errLine p :: r.2.1, r.2.2)
    | some (fs1, b, line) =>
      let r := runAll fs1 ps
      (r.1, line :: r.2.1, if b then r.2.2 + 1 else r.2.2)

/-- The whole `fix-all-patterns.py` program: the loop plus the final summary
line (always printed). -/
def mainAll (fs : FS) (files : List (List Char)) : FS × List (List Char) × Nat :=
  let r := runAll fs files
  (r.1, r.2.1 ++ [summaryLine r.2.2], r.2.2)

/-- The `__main__` loop of `fix-remaining.py`: there is no `try`/`except`, so
a failed `fix_file` propagates and aborts the run — the final `Bool` is
`false` exactly when that happened, and then later files are untouched. -/
def runRemaining (fs : FS) : List (List Char) → FS × List (List Char) × Nat × Bool
  | [] => (fs, [], 0, true)
  | p :: ps =>
    match fixFileRemaining fs p with
    | none => (fs, [], 0, false)
    | some (fs1, b, line) =>
      let r := runRemaining fs1 ps
      (r.1, line :: r.2.1, (if b then r.2.2.1 + 1 else r.2.2.1), r.2.2.2)

/-- The whole `fix-remaining.py` program: the summary line is printed only
when the loop ran to completion. -/
def mainRemaining (fs : FS) (files : List (List Char)) :
    FS × List (List Char) × Bool :=
  match runRemaining fs files with
  | (fs1, lines, n, true) => (fs1, lines ++ [summaryLine n], true)
  | (fs1, lines, _, false) => (fs1, lines, false)

/-- The hardcoded file list, identical in both scripts. -/
def filesList : List (List Char) :=
  [ "src/utils/ts/print.test.ts".toList
  , "src/utils/mask/mask.test-d.ts".toList
  , "src/domains/str/match.test-d.ts".toList
  , "src/utils/err/try.test.ts".toList
  , "src/utils/sch/$.test-d.ts".toList
  , "src/utils/ts/relation.test.ts".toList
  , "src/utils/config-manager/ConfigManager.test.ts".toList
  , "src/utils/fs/$.test.ts".toList
  , "src/domains/group/$.test.ts".toList
  , "src/domains/idx/$.test.ts".toList
  , "src/domains/obj/filter.test-d.ts".toList ]

/-- `true` when a console line is the success marker `✓ Fixed {path}`. -/
def isOkLine (l : List Char) : Bool := (stripLead "✓ Fixed ".toList l).isSome

theorem stripLead_eq_append {p s r : List Char} (h : stripLead p s = some r) :
    s = p ++ r := by
  induction p generalizing s with
  | nil => simpa [stripLead] using h
  | cons a as ih =>
    cases s with
    | nil => simp [stripLead] at h
    | cons b bs =>
      simp only [stripLead] at h
      split at h
      · next hab => subst hab; simpa using ih h
      · exact absurd h (by simp)

theorem stripLead_append (p r : List Char) : stripLead p (p ++ r) = some r := by
  induction p with
  | nil => rfl
  | cons a as ih => simp [stripLead, ih]

theorem matchAt_pre {r : Rule} {s : List Char} {x : List Char × List Char × List Char}
    (h : matchAt r s = some x) : ∃ u, s = r.pre ++ u := by
  unfold matchAt at h
  cases hs : stripLead r.pre s with
  | none => rw [hs] at h; exact absurd h (by simp)
  | some s1 => exact ⟨s1, stripLead_eq_append hs⟩

theorem hasSub_of_stripLead {n s : List Char} (h : (stripLead n s).isSome) :
    hasSub n s = true := by
  cases s with
  | nil => simpa [hasSub] using h
  | cons c cs => simp [hasSub, h]

theorem hasMatch_eq_false {r : Rule} {s u : List Char}
    (hpre : stripLead needle r.pre = some u) (h : hasSub needle s = false) :
    hasMatch r s = false := by
  induction s with
  | nil =>
    simp only [hasMatch]
    cases hm : matchAt r [] with
    | none => simp
    | some x =>
      obtain ⟨v, hv⟩ := matchAt_pre hm
      rw [stripLead_eq_append hpre] at hv
      have : (stripLead needle ([] : List Char)).isSome := by
        rw [hv, List.append_assoc, stripLead_append]; rfl
      rw [hasSub_of_stripLead this] at h
      exact absurd h (by simp)
  | cons c cs ih =>
    simp only [hasSub, Bool.or_eq_false_iff] at h
    simp only [hasMatch, Bool.or_eq_false_iff]
    refine ⟨?_, ih h.2⟩
    cases hm : matchAt r (c :: cs) with
    | none => simp
    | some x =>
      obtain ⟨v, hv⟩ := matchAt_pre hm
      rw [stripLead_eq_append hpre] at hv
      have : (stripLead needle (c :: cs)).isSome := by
        rw [hv, List.append_assoc, stripLead_append]; rfl
      rw [this] at h
      exact absurd h.1 (by simp)

theorem substAux_id_of_no_match {r : Rule} :
    ∀ (fuel : Nat) (s : List Char), hasMatch r s = false → substAux r fuel s = s := by
  intro fuel
  induction fuel with
  | zero => intro s _; rfl
  | succ n ih =>
    intro s h
    cases s with
    | nil => rfl
    | cons c cs =>
      simp only [hasMatch, Bool.or_eq_false_iff] at h
      have hm : matchAt r (c :: cs) = none := by
        cases hm : matchAt r (c :: cs) with
        | none => rfl
        | some x => rw [hm] at h; exact absurd h.1 (by simp)
      simp only [substAux, hm]
      rw [ih cs h.2]

theorem subst_id_of_no_match {r : Rule} {s : List Char} (h : hasMatch r s = false) :
    subst r s = s :=
  substAux_id_of_no_match s.length s h

theorem applyRules_id_of_no_match {rs : List Rule} {s : List Char}
    (h : ∀ r ∈ rs, hasMatch r s = false) : applyRules rs s = s := by
  induction rs with
  | nil => rfl
  | cons r rest ih =>
    have h1 : subst r s = s := subst_id_of_no_match (h r (by simp))
    have : applyRules (r :: rest) s = applyRules rest (subst r s) := rfl
    rw [this, h1]
    exact ih (fun q hq => h q (by simp [hq]))

theorem applyRules_id_of_no_needle {rs : List Rule} {s : List Char}
    (hrs : ∀ r ∈ rs, (stripLead needle r.pre).isSome = true)
    (h : hasSub needle s = false) : applyRules rs s = s := by
  refine applyRules_id_of_no_match (fun r hr => ?_)
  obtain ⟨u, hu⟩ := Option.isSome_iff_exists.mp (hrs r hr)
  exact hasMatch_eq_false hu h

theorem lookupFS_writeFS_self (fs : FS) (p c : List Char) :
    lookupFS (writeFS fs p c) p = some c := by
  induction fs with
  | nil => simp [writeFS, lookupFS]
  | cons e t ih =>
    obtain ⟨q, d⟩ := e
    by_cases hq : q = p
    · subst hq; simp [writeFS, lookupFS]
    · simp [writeFS, lookupFS, hq, ih]

theorem lookupFS_writeFS_isSome {fs : FS} {q : List Char} (p c : List Char)
    (h : (lookupFS fs q).isSome) : (lookupFS (writeFS fs p c) q).isSome := by
  induction fs with
  | nil => simp [lookupFS] at h
  | cons e t ih =>
    obtain ⟨k, d⟩ := e
    by_cases hk : k = p
    · subst hk
      by_cases hq : k = q
      · subst hq; simp [writeFS, lookupFS]
      · simp only [lookupFS, if_neg hq] at h
        simp [writeFS, lookupFS, hq, h]
    · by_cases hq : k = q
      · subst hq; simp [writeFS, lookupFS, hk]
      · simp only [lookupFS, if_neg hq] at h
        simp [writeFS, lookupFS, hk, hq, ih h]

theorem isOkLine_okLine (p : List Char) : isOkLine (okLine p) = true := rfl

theorem isOkLine_noLine (p : List Char) : isOkLine (noLine p) = false := rfl

theorem fixFileWith_of_changed {rs : List Rule} {fs : FS} {p content : List Char}
    (hc : lookupFS fs p = some content) (h : applyRules rs content ≠ content) :
    fixFileWith rs fs p = some (writeFS fs p (applyRules rs content), true, okLine p) := by
  simp only [fixFileWith, hc]
  rw [if_pos h]

theorem fixFileWith_of_unchanged {rs : List Rule} {fs : FS} {p content : List Char}
    (hc : lookupFS fs p = some content) (h : applyRules rs content = content) :
    fixFileWith rs fs p = some (fs, false, noLine p) := by
  simp only [fixFileWith, hc]
  rw [if_neg (fun hn => hn h)]

theorem runAll_spec : ∀ (files : List (List Char)) (fs : FS),
    (∀ p ∈ files, (lookupFS fs p).isSome) →
    List.Forall₂ (fun l p => l = okLine p ∨ l = noLine p) (runAll fs files).2.1 files ∧
    (runAll fs files).2.2 = (runAll fs files).2.1.countP isOkLine := by
  intro files
  induction files with
  | nil => intro fs _; exact ⟨List.Forall₂.nil, rfl⟩
  | cons p ps ih =>
    intro fs h
    obtain ⟨content, hc⟩ := Option.isSome_iff_exists.mp (h p (by simp))
    have hps : ∀ q ∈ ps, (lookupFS fs q).isSome := fun q hq => h q (by simp [hq])
    by_cases hch : applyRules rulesAll content = content
    · have hfix : fixFileAll fs p = some (fs, false, noLine p) :=
        fixFileWith_of_unchanged hc hch
      have hrun : runAll fs (p :: ps) =
          ((runAll fs ps).1, noLine p :: (runAll fs ps).2.1, (runAll fs ps).2.2) := by
        simp [runAll, hfix]
      obtain ⟨hF, hC⟩ := ih fs hps
      rw [hrun]
      refine ⟨List.Forall₂.cons (Or.inr rfl) hF, ?_⟩
      simp [List.countP_cons, isOkLine_noLine, hC]
    · have hfix : fixFileAll fs p =
          some (writeFS fs p (applyRules rulesAll content), true, okLine p) :=
        fixFileWith_of_changed hc hch
      have hrun : runAll fs (p :: ps) =
          ((runAll (writeFS fs p (applyRules rulesAll content)) ps).1,
           okLine p :: (runAll (writeFS fs p (applyRules rulesAll content)) ps).2.1,
           (runAll (writeFS fs p (applyRules rulesAll content)) ps).2.2 + 1) := by
        simp [runAll, hfix]
      obtain ⟨hF, hC⟩ := ih (writeFS fs p (applyRules rulesAll content))
        (fun q hq => lookupFS_writeFS_isSome p (applyRules rulesAll content) (hps q hq))
      rw [hrun]
      refine ⟨List.Forall₂.cons (Or.inl rfl) hF, ?_⟩
      simp [List.countP_cons, isOkLine_okLine, hC]

theorem runRemaining_spec : ∀ (files : List (List Char)) (fs : FS),
    (∀ p ∈ files, (lookupFS fs p).isSome) →
    (runRemaining fs files).2.2.2 = true ∧
    List.Forall₂ (fun l p => l = okLine p ∨ l = noLine p) (runRemaining fs files).2.1 files ∧
    (runRemaining fs files).2.2.1 = (runRemaining fs files).2.1.countP isOkLine := by
  intro files
  induction files with
  | nil => intro fs _; exact ⟨rfl, List.Forall₂.nil, rfl⟩
  | cons p ps ih =>
    intro fs h
    obtain ⟨content, hc⟩ := Option.isSome_iff_exists.mp (h p (by simp))
    have hps : ∀ q ∈ ps, (lookupFS fs q).isSome := fun q hq => h q (by simp [hq])
    by_cases hch : applyRules rulesRemaining content = content
    · have hfix : fixFileRemaining fs p = some (fs, false, noLine p) :=
        fixFileWith_of_unchanged hc hch
      have hrun : runRemaining fs (p :: ps) =
          ((runRemaining fs ps).1, noLine p :: (runRemaining fs ps).2.1,
           (runRemaining fs ps).2.2.1, (runRemaining fs ps).2.2.2) := by
        simp [runRemaining, hfix]
      obtain ⟨hB, hF, hC⟩ := ih fs hps
      rw [hrun]
      exact ⟨hB, List.Forall₂.cons (Or.inr rfl) hF, by
        simp [List.countP_cons, isOkLine_noLine, hC]⟩
    · have hfix : fixFileRemaining fs p =
          some (writeFS fs p (applyRules rulesRemaining content), true, okLine p) :=
        fixFileWith_of_changed hc hch
      have hrun : runRemaining fs (p :: ps) =
          ((runRemaining (writeFS fs p (applyRules rulesRemaining content)) ps).1,
           okLine p :: (runRemaining (writeFS fs p (applyRules rulesRemaining content)) ps).2.1,
           (runRemaining (writeFS fs p (applyRules rulesRemaining content)) ps).2.2.1 + 1,
           (runRemaining (writeFS fs p (applyRules rulesRemaining content)) ps).2.2.2) := by
        simp [runRemaining, hfix]
      obtain ⟨hB, hF, hC⟩ := ih (writeFS fs p (applyRules rulesRemaining content))
        (fun q hq => lookupFS_writeFS_isSome p (applyRules rulesRemaining content) (hps q hq))
      rw [hrun]
      exact ⟨hB, List.Forall₂.cons (Or.inl rfl) hF, by
        simp [List.countP_cons, isOkLine_okLine, hC]⟩

theorem runAll_lines_length : ∀ (files : List (List Char)) (fs : FS),
    (runAll fs files).2.1.length = files.length := by
  intro files
  induction files with
  | nil => intro fs; rfl
  | cons p ps ih =>
    intro fs
    cases hfix : fixFileAll fs p with
    | none => simp [runAll, hfix, ih]
    | some x =>
      obtain ⟨fs1, b, line⟩ := x
      simp [runAll, hfix, ih]

/-- C1: for every file processed, `fix_file` writes the transformed content
back to the file's path if and only if it differs byte-for-byte from the
content read, and it returns `true` exactly when such a write occurred
(`false` when the content is identical and nothing is written) — in both
script variants. -/
theorem claim_c1_write_iff_diff (fs : FS) (p content : List Char)
    (hc : lookupFS fs p = some content) :
    (applyRules rulesAll content ≠ content →
        fixFileAll fs p =
          some (writeFS fs p (applyRules rulesAll content), true, okLine p)) ∧
    (applyRules rulesAll content = content →
        fixFileAll fs p = some (fs, false, noLine p)) ∧
    (applyRules rulesRemaining content ≠ content →
        fixFileRemaining fs p =
          some (writeFS fs p (applyRules rulesRemaining content), true, okLine p)) ∧
    (applyRules rulesRemaining content = content →
        fixFileRemaining fs p = some (fs, false, noLine p)) :=
  ⟨fun h => fixFileWith_of_changed hc h, fun h => fixFileWith_of_unchanged hc h,
   fun h => fixFileWith_of_changed hc h, fun h => fixFileWith_of_unchanged hc h⟩

/-- Witness for C1 at a concrete filesystem: the pipeline changes the
content, so `fix_file` writes the transformed content and returns `true`. -/
theorem claim_c1_write_iff_diff_witness :
    lookupFS [("src/a.test.ts".toList, "expectTypeOf<Foo>().toEqualTypeOf<Bar>()".toList)]
        "src/a.test.ts".toList = some "expectTypeOf<Foo>().toEqualTypeOf<Bar>()".toList ∧
    fixFileAll [("src/a.test.ts".toList, "expectTypeOf<Foo>().toEqualTypeOf<Bar>()".toList)]
        "src/a.test.ts".toList =
      some (writeFS [("src/a.test.ts".toList, "expectTypeOf<Foo>().toEqualTypeOf<Bar>()".toList)]
              "src/a.test.ts".toList
              (applyRules rulesAll "expectTypeOf<Foo>().toEqualTypeOf<Bar>()".toList),
            true, okLine "src/a.test.ts".toList) :=
  ⟨by decide, (claim_c1_write_iff_diff _ _ _ (by decide)).1 (by decide)⟩

/-- C2: the rule pipeline turns the exact input
`expectTypeOf<Foo>().toEqualTypeOf<Bar>()` into exactly
`Ts.Assert.exact.ofAs<Bar>().onAs<Foo>()` in both script variants. -/
theorem claim_c2_type_only_example :
    pipelineAll "expectTypeOf<Foo>().toEqualTypeOf<Bar>()".toList =
      "Ts.Assert.exact.ofAs<Bar>().onAs<Foo>()".toList ∧
    pipelineRemaining "expectTypeOf<Foo>().toEqualTypeOf<Bar>()".toList =
      "Ts.Assert.exact.ofAs<Bar>().onAs<Foo>()".toList := by decide

/-- C3 fails as stated: the `fix-remaining.py` pipeline has no rule for the
value–value form `expectTypeOf(x).toEqualTypeOf(y)` (its two patterns both
demand `toEqualTypeOf<`), so it does not produce the claimed output. -/
theorem claim_c3_counterexample :
    pipelineRemaining "expectTypeOf(x).toEqualTypeOf(y)".toList ≠
      "Ts.Assert.exact.ofAs<typeof y>().on(x)".toList := by decide

/-- C3 amended: `fix-all-patterns.py` rewrites
`expectTypeOf(x).toEqualTypeOf(y)` to `Ts.Assert.exact.ofAs<typeof y>().on(x)`
(pattern 1), while `fix-remaining.py` leaves that input unchanged. -/
theorem claim_c3_amended :
    pipelineAll "expectTypeOf(x).toEqualTypeOf(y)".toList =
      "Ts.Assert.exact.ofAs<typeof y>().on(x)".toList ∧
    pipelineRemaining "expectTypeOf(x).toEqualTypeOf(y)".toList =
      "expectTypeOf(x).toEqualTypeOf(y)".toList := by decide

/-- C5 fails as stated: on this input the first application leaves an
`expectTypeOf<...>` fragment inside a capture, and what rule 6 emits around
it forms a fresh match, so the second application changes the content again —
in both script variants. -/
theorem claim_c5_counterexample :
    pipelineAll (pipelineAll
        "expectTypeOf<A>().toEqualTypeOf<expectTypeOf<C>().toEqualTypeOf<D>()>()".toList) ≠
      pipelineAll
        "expectTypeOf<A>().toEqualTypeOf<expectTypeOf<C>().toEqualTypeOf<D>()>()".toList ∧
    pipelineRemaining (pipelineRemaining
        "expectTypeOf<A>().toEqualTypeOf<expectTypeOf<C>().toEqualTypeOf<D>()>()".toList) ≠
      pipelineRemaining
        "expectTypeOf<A>().toEqualTypeOf<expectTypeOf<C>().toEqualTypeOf<D>()>()".toList := by
  decide

/-- C5 amended: the rewrite is idempotent on every input whose first-run
output no longer contains the substring `expectTypeOf` (every pattern needs
that literal, so the second run is the identity); in general a second run can
change the output again. -/
theorem claim_c5_amended (s : List Char)
    (hA : hasSub needle (pipelineAll s) = false)
    (hR : hasSub needle (pipelineRemaining s) = false) :
    pipelineAll (pipelineAll s) = pipelineAll s ∧
    pipelineRemaining (pipelineRemaining s) = pipelineRemaining s :=
  ⟨applyRules_id_of_no_needle (by decide) hA,
   applyRules_id_of_no_needle (by decide) hR⟩

/-- Witness for the amended C5: a fully rewritten file no longer contains
`expectTypeOf`, and the second run leaves it unchanged. -/
theorem claim_c5_amended_witness :
    hasSub needle (pipelineAll "expectTypeOf<Foo>().toEqualTypeOf<Bar>()".toList) = false ∧
    pipelineAll (pipelineAll "expectTypeOf<Foo>().toEqualTypeOf<Bar>()".toList) =
      pipelineAll "expectTypeOf<Foo>().toEqualTypeOf<Bar>()".toList :=
  ⟨by decide, (claim_c5_amended _ (by decide) (by decide)).1⟩

/-- C6: when no rule's pattern matches the content, the pipeline output is
byte-identical to the input, `fix_file` performs no write (the filesystem is
returned untouched), reports the `No changes` line, and returns `false` — in
both script variants. -/
theorem claim_c6_no_match_unchanged (fs : FS) (p content : List Char)
    (hc : lookupFS fs p = some content)
    (hA : ∀ r ∈ rulesAll, hasMatch r content = false)
    (hR : ∀ r ∈ rulesRemaining, hasMatch r content = false) :
    pipelineAll content = content ∧
    fixFileAll fs p = some (fs, false, noLine p) ∧
    pipelineRemaining content = content ∧
    fixFileRemaining fs p = some (fs, false, noLine p) := by
  have h1 : applyRules rulesAll content = content := applyRules_id_of_no_match hA
  have h2 : applyRules rulesRemaining content = content := applyRules_id_of_no_match hR
  exact ⟨h1, fixFileWith_of_unchanged hc h1, h2, fixFileWith_of_unchanged hc h2⟩

/-- Witness for C6: a content none of the eight patterns matches is reported
unchanged with return value `false` and no write. -/
theorem claim_c6_no_match_unchanged_witness :
    (∀ r ∈ rulesAll, hasMatch r "const x = 1;".toList = false) ∧
    fixFileAll [("src/a.test.ts".toList, "const x = 1;".toList)] "src/a.test.ts".toList =
      some ([("src/a.test.ts".toList, "const x = 1;".toList)], false,
            noLine "src/a.test.ts".toList) :=
  ⟨by decide,
   (claim_c6_no_match_unchanged [("src/a.test.ts".toList, "const x = 1;".toList)]
     "src/a.test.ts".toList "const x = 1;".toList
     (by decide) (by decide) (by decide)).2.1⟩

/-- C7: the six rules of `fix-all-patterns.py` are applied in their declared
order, each rule's output feeding the next, and the order matters: swapping
the last two rules changes the final content on this input (rule 5 consumes
text that rule 6 would otherwise have matched). -/
theorem claim_c7_order_matters :
    (∀ s : List Char, pipelineAll s =
        subst ruleA6 (subst ruleA5 (subst ruleA4 (subst ruleA3
          (subst ruleA2 (subst ruleA1 s)))))) ∧
    applyRules [ruleA1, ruleA2, ruleA3, ruleA4, ruleA6, ruleA5]
        "expectTypeOf(v).toEqualTypeOf<expectTypeOf<A>().toEqualTypeOf<B>()>()".toList ≠
      pipelineAll
        "expectTypeOf(v).toEqualTypeOf<expectTypeOf<A>().toEqualTypeOf<B>()>()".toList :=
  ⟨fun _ => rfl, by decide⟩

/-- C9: every pattern of both scripts starts with the literal
`expectTypeOf`, so any content without that substring passes through both
pipelines completely unchanged. -/
theorem claim_c9_frame (s : List Char) (h : hasSub needle s = false) :
    pipelineAll s = s ∧ pipelineRemaining s = s :=
  ⟨applyRules_id_of_no_needle (by decide) h,
   applyRules_id_of_no_needle (by decide) h⟩

/-- Witness for C9: ordinary code without `expectTypeOf` is untouched. -/
theorem claim_c9_frame_witness :
    hasSub needle "const a = add(1, 2); // no assertions here".toList = false ∧
    pipelineAll "const a = add(1, 2); // no assertions here".toList =
      "const a = add(1, 2); // no assertions here".toList :=
  ⟨by decide, (claim_c9_frame _ (by decide)).1⟩

/-- C4 fails as stated: in `fix-remaining.py` there is no `try`/`except`, so
a missing first file aborts the whole run — the loop produces no further
per-file lines, no summary is printed (final flag `false`), and the second
file is left untouched even though `fix_file` would have changed it. -/
theorem claim_c4_counterexample :
    mainRemaining [("b.ts".toList, "expectTypeOf<Foo>().toEqualTypeOf<Bar>()".toList)]
        ["a.ts".toList, "b.ts".toList] =
      ([("b.ts".toList, "expectTypeOf<Foo>().toEqualTypeOf<Bar>()".toList)], [], false) ∧
    (fixFileRemaining [("b.ts".toList, "expectTypeOf<Foo>().toEqualTypeOf<Bar>()".toList)]
        "b.ts".toList).map (fun x => x.2.1) = some true := by decide

/-- C4 amended: only `fix-all-patterns.py` isolates per-file failures — a
failed file yields its error line and the loop continues, and the summary
line is always printed; in `fix-remaining.py` a failed file aborts the run
with no summary and no processing of the remaining files. -/
theorem claim_c4_amended :
    (∀ (fs : FS) (p : List Char) (ps : List (List Char)), lookupFS fs p = none →
        runAll fs (p :: ps) =
          ((runAll fs ps).1, errLine p :: (runAll fs ps).2.1, (runAll fs ps).2.2)) ∧
    (∀ (fs : FS) (files : List (List Char)),
        (mainAll fs files).2.1.length = files.length + 1) ∧
    (∀ (fs : FS) (p : List Char) (ps : List (List Char)), lookupFS fs p = none →
        mainRemaining fs (p :: ps) = (fs, [], false)) := by
  refine ⟨?_, ?_, ?_⟩
  · intro fs p ps h
    have hfix : fixFileAll fs p = none := by simp [fixFileAll, fixFileWith, h]
    simp [runAll, hfix]
  · intro fs files
    simp [mainAll, runAll_lines_length]
  · intro fs p ps h
    have hfix : fixFileRemaining fs p = none := by
      simp [fixFileRemaining, fixFileWith, h]
    simp [mainRemaining, runRemaining, hfix]

/-- Witness for the amended C4 on a filesystem missing the listed file. -/
theorem claim_c4_amended_witness :
    runAll [] ("a.ts".toList :: []) =
      ((runAll [] []).1, errLine "a.ts".toList :: (runAll [] []).2.1, (runAll [] []).2.2) ∧
    (mainAll [] ["a.ts".toList]).2.1.length = ["a.ts".toList].length + 1 ∧
    mainRemaining [] ("a.ts".toList :: []) = ([], [], false) :=
  ⟨claim_c4_amended.1 [] "a.ts".toList [] rfl,
   claim_c4_amended.2.1 [] ["a.ts".toList],
   claim_c4_amended.2.2 [] "a.ts".toList [] rfl⟩

/-- C8: when every listed file is readable, both programs emit one console
line per file — the `✓ Fixed` marker with the path when it changed, the
`No changes` line otherwise — followed by a summary whose count equals the
number of files for which `fix_file` returned `true` (exactly the files with
a `✓ Fixed` line). -/
theorem claim_c8_reporting (fs : FS) (files : List (List Char))
    (h : ∀ p ∈ files, (lookupFS fs p).isSome) :
    (List.Forall₂ (fun l p => l = okLine p ∨ l = noLine p) (runAll fs files).2.1 files ∧
     mainAll fs files =
       ((runAll fs files).1,
        (runAll fs files).2.1 ++ [summaryLine ((runAll fs files).2.1.countP isOkLine)],
        (runAll fs files).2.1.countP isOkLine)) ∧
    (List.Forall₂ (fun l p => l = okLine p ∨ l = noLine p) (runRemaining fs files).2.1 files ∧
     mainRemaining fs files =
       ((runRemaining fs files).1,
        (runRemaining fs files).2.1 ++
          [summaryLine ((runRemaining fs files).2.1.countP isOkLine)],
        true)) := by
  obtain ⟨hF, hC⟩ := runAll_spec files fs h
  obtain ⟨hB, hF2, hC2⟩ := runRemaining_spec files fs h
  refine ⟨⟨hF, ?_⟩, ⟨hF2, ?_⟩⟩
  · rw [← hC]; rfl
  · rcases hr : runRemaining fs files with ⟨fs1, lines, rest⟩
    rcases rest with ⟨n, b⟩
    rw [hr] at hB hC2
    simp only at hB hC2
    subst hB
    simp only [mainRemaining, hr]
    simp [hC2]

/-- Witness for C8: with every hardcoded file present (all with untouched
content `x`), the full run reports per-file lines and the summary. -/
theorem claim_c8_reporting_witness :
    (∀ p ∈ filesList,
       (lookupFS (filesList.map (fun p => (p, "x".toList))) p).isSome) ∧
    mainAll (filesList.map (fun p => (p, "x".toList))) filesList =
      ((runAll (filesList.map (fun p => (p, "x".toList))) filesList).1,
       (runAll (filesList.map (fun p => (p, "x".toList))) filesList).2.1 ++
         [summaryLine ((runAll (filesList.map (fun p => (p, "x".toList)))
            filesList).2.1.countP isOkLine)],
       (runAll (filesList.map (fun p => (p, "x".toList))) filesList).2.1.countP isOkLine) :=
  ⟨by decide,
   (claim_c8_reporting (filesList.map (fun p => (p, "x".toList))) filesList (by decide)).1.2⟩

/-- C10: the transformation and the changed/unchanged decision of `fix_file`
depend only on the file's content — two runs over different filesystems and
paths holding the same content produce the same changed flag and leave the
same content at their respective paths, in both script variants. -/
theorem claim_c10_content_determined (fs1 fs2 : FS) (p1 p2 c : List Char)
    (h1 : lookupFS fs1 p1 = some c) (h2 : lookupFS fs2 p2 = some c) :
    (∃ b out,
      (∃ g l, fixFileAll fs1 p1 = some (g, b, l) ∧ lookupFS g p1 = some out) ∧
      (∃ g l, fixFileAll fs2 p2 = some (g, b, l) ∧ lookupFS g p2 = some out)) ∧
    (∃ b out,
      (∃ g l, fixFileRemaining fs1 p1 = some (g, b, l) ∧ lookupFS g p1 = some out) ∧
      (∃ g l, fixFileRemaining fs2 p2 = some (g, b, l) ∧ lookupFS g p2 = some out)) := by
  constructor
  · by_cases hch : applyRules rulesAll c = c
    · exact ⟨false, c,
        ⟨fs1, noLine p1, fixFileWith_of_unchanged h1 hch, h1⟩,
        ⟨fs2, noLine p2, fixFileWith_of_unchanged h2 hch, h2⟩⟩
    · exact ⟨true, applyRules rulesAll c,
        ⟨writeFS fs1 p1 (applyRules rulesAll c), okLine p1,
          fixFileWith_of_changed h1 hch, lookupFS_writeFS_self fs1 p1 _⟩,
        ⟨writeFS fs2 p2 (applyRules rulesAll c), okLine p2,
          fixFileWith_of_changed h2 hch, lookupFS_writeFS_self fs2 p2 _⟩⟩
  · by_cases hch : applyRules rulesRemaining c = c
    · exact ⟨false, c,
        ⟨fs1, noLine p1, fixFileWith_of_unchanged h1 hch, h1⟩,
        ⟨fs2, noLine p2, fixFileWith_of_unchanged h2 hch, h2⟩⟩
    · exact ⟨true, applyRules rulesRemaining c,
        ⟨writeFS fs1 p1 (applyRules rulesRemaining c), okLine p1,
          fixFileWith_of_changed h1 hch, lookupFS_writeFS_self fs1 p1 _⟩,
        ⟨writeFS fs2 p2 (applyRules rulesRemaining c), okLine p2,
          fixFileWith_of_changed h2 hch, lookupFS_writeFS_self fs2 p2 _⟩⟩

/-- Witness for C10: the same content at different paths in different
filesystems yields the same flag and the same resulting content. -/
theorem claim_c10_content_determined_witness :
    lookupFS [("a.ts".toList, "expectTypeOf<Foo>().toEqualTypeOf<Bar>()".toList)]
        "a.ts".toList = some "expectTypeOf<Foo>().toEqualTypeOf<Bar>()".toList ∧
    lookupFS [("zzz".toList, "junk".toList),
              ("b.ts".toList, "expectTypeOf<Foo>().toEqualTypeOf<Bar>()".toList)]
        "b.ts".toList = some "expectTypeOf<Foo>().toEqualTypeOf<Bar>()".toList ∧
    (∃ b out,
      (∃ g l, fixFileAll [("a.ts".toList, "expectTypeOf<Foo>().toEqualTypeOf<Bar>()".toList)]
          "a.ts".toList = some (g, b, l) ∧ lookupFS g "a.ts".toList = some out) ∧
      (∃ g l, fixFileAll [("zzz".toList, "junk".toList),
            ("b.ts".toList, "expectTypeOf<Foo>().toEqualTypeOf<Bar>()".toList)]
          "b.ts".toList = some (g, b, l) ∧ lookupFS g "b.ts".toList = some out)) :=
  ⟨by decide, by decide,
   (claim_c10_content_determined
     [("a.ts".toList, "expectTypeOf<Foo>().toEqualTypeOf<Bar>()".toList)]
     [("zzz".toList, "junk".toList),
      ("b.ts".toList, "expectTypeOf<Foo>().toEqualTypeOf<Bar>()".toList)]
     "a.ts".toList "b.ts".toList "expectTypeOf<Foo>().toEqualTypeOf<Bar>()".toList
     (by decide) (by decide)).1⟩
